import Mathlib

/-!
Shallow embedding of `src/lib.rs` of the oggvorbis-meta library.

Conventions of the embedding:
* A Rust `String` is modelled by its UTF-8 byte sequence, `List Nat`
  (each element a byte value); `as_bytes().len()` is then `List.length`.
* Machine integers are `Nat` with explicit bounds: a `usize -> u32`
  `try_into` succeeds exactly when the value is `< 2^32`.
* `str::to_lowercase` is an external standard-library collaborator; the
  `TagStore` operations take it as an explicit function parameter `lower`.
* `lewton::header::read_header_comment` is an external collaborator; it is
  passed as a parameter `decode : Bytes -> Option CommentHeader`
  (`some` = `Ok(header)`, `none` = `Err(_)`, the error payload being opaque
  to this crate).
* The `ogg::PacketReader` is modelled by the list of results its successive
  `read_packet` / `read_packet_expected` calls return: a `ReadEvent` is
  either a packet (`Ok(Some(p))`), end of stream (`Ok(None)`), or a read
  error (`Err(_)`).  An exhausted event list behaves like end of stream.
* The `ogg::PacketWriter` writing into an in-memory `Cursor<Vec<u8>>` is
  modelled by the list of `write_packet` calls it receives (data, stream
  serial, end info, absolute granule position); these writes are
  infallible, matching writes into a `Vec`-backed cursor.
* A Rust panic (from `.unwrap()`) is modelled by `Option.none` at the
  outermost level of the function that panics.
-/

/-- Byte sequence (`Vec<u8>` / `&[u8]`). -/
abbrev Bytes := List Nat

/-- A Rust `String`, as its UTF-8 bytes. -/
abbrev Str := List Nat

/-- Embeds `lewton::header::CommentHeader`: vendor string plus ordered
`(key, value)` comment list. -/
structure CommentHeader where
  vendor : Str
  comment_list : List (Str × Str)
deriving DecidableEq, Repr

/-- Embeds `VorbisMakeCommentError()` — the unit-like encode error. -/
structure VorbisMakeCommentError where
deriving DecidableEq, Repr

/-- Embeds `VorbisReadCommentError` — read-side error kinds. -/
inductive VorbisReadCommentError where
  | FailedReadOggFile
  | FailedReadHeader
deriving DecidableEq, Repr

/-- Embeds `VorbisReplaceCommentError` — write-side error (an `io::Error`,
opaque). -/
inductive VorbisReplaceCommentError where
  | FailedReadOggFile
deriving DecidableEq, Repr

/-! ## TagStore operations (`impl VorbisComments for CommentHeader`) -/

/-- Embeds `CommentHeader::from(vendor, comment_list)`. -/
def VorbisComments.from (vendor : Str) (comment_list : List (Str × Str)) :
    CommentHeader :=
  { vendor := vendor, comment_list := comment_list }

/-- Embeds `CommentHeader::new()`: empty vendor, empty comment list. -/
def VorbisComments.new : CommentHeader :=
  { vendor := [], comment_list := [] }

/-- Embeds `get_tag_multi`: values of all entries whose lowercased key equals the
lowercased argument, in storage order.  `lower` stands for the external
`str::to_lowercase`. -/
def get_tag_multi (lower : Str → Str) (h : CommentHeader) (tag : Str) :
    List Str :=
  (h.comment_list.filter fun c => lower c.1 = lower tag).map (·.2)

/-- Embeds `get_tag_single`: first element of `get_tag_multi` when nonempty. -/
def get_tag_single (lower : Str → Str) (h : CommentHeader) (tag : Str) :
    Option Str :=
  let tags := get_tag_multi lower h tag
  if hlen : tags.length > 0 then some (tags.get ⟨0, hlen⟩) else none

/-- Embeds `add_tag_single`: push `(tag.to_lowercase(), value)`. -/
def add_tag_single (lower : Str → Str) (h : CommentHeader)
    (tag value : Str) : CommentHeader :=
  { h with comment_list := h.comment_list ++ [(lower tag, value)] }

/-- Embeds `add_tag_multi`: push one entry per value, key lowercased each time. -/
def add_tag_multi (lower : Str → Str) (h : CommentHeader)
    (tag : Str) (values : List Str) : CommentHeader :=
  { h with
    comment_list :=
      h.comment_list ++ values.map fun v => (lower tag, v) }

/-- Embeds `clear_tag`: retain entries whose lowercased key differs. -/
def clear_tag (lower : Str → Str) (h : CommentHeader) (tag : Str) :
    CommentHeader :=
  { h with
    comment_list :=
      h.comment_list.filter fun c => ¬ (lower c.1 = lower tag) }

/-! ## Comment-header encoding (`safe_make_comment_header`) -/

/-- Embeds the `usize -> u32` conversion: `try_into().map_err(|_| VorbisMakeCommentError())`. -/
def u32TryFrom (n : Nat) : Except VorbisMakeCommentError Nat :=
  if n < 2 ^ 32 then .ok n else .error ⟨⟩

/-- Embeds `u32::to_le_bytes`. -/
def u32le (n : Nat) : Bytes :=
  [n % 256, n / 256 % 256, n / 2 ^ 16 % 256, n / 2 ^ 24 % 256]

/-- The byte of the ASCII equals sign, used by `format!("{}={}", k, v)`. -/
def eqByte : Nat := 61

/-- The `for comment in header.comment_list` loop of
`safe_make_comment_header`: appends, for each comment, the 4-byte
little-endian length of `"<key>=<value>"` followed by its bytes, onto the
accumulated packet; the first length that does not fit `u32` aborts.
(The `commentstrings.last().ok_or_else(..)` in the source cannot fail:
the string was just pushed.) -/
def commentLoop : List (Str × Str) → Bytes →
    Except VorbisMakeCommentError Bytes
  | [], acc => .ok acc
  | (k, v) :: rest, acc =>
    let s := k ++ eqByte :: v
    match u32TryFrom s.length with
    | .error e => .error e
    | .ok comment_len => commentLoop rest (acc ++ u32le comment_len ++ s)

/-- Embeds `safe_make_comment_header`: signature, vendor length + vendor bytes,
comment count, each comment, trailing byte 1. -/
def safe_make_comment_header (header : CommentHeader) :
    Except VorbisMakeCommentError Bytes :=
  let start : Bytes := [3, 118, 111, 114, 98, 105, 115]
  let vendor := header.vendor
  match u32TryFrom vendor.length with
  | .error e => .error e
  | .ok vendor_len =>
    match u32TryFrom header.comment_list.length with
    | .error e => .error e
    | .ok comment_nbr =>
      match commentLoop header.comment_list
          (start ++ u32le vendor_len ++ vendor ++ u32le comment_nbr) with
      | .error e => .error e
      | .ok new_packet => .ok (new_packet ++ [1])

/-- Embeds `make_comment_header`, that is `safe_make_comment_header(header).unwrap()`.
The panic on `Err` is modelled as `none`. -/
def make_comment_header (header : CommentHeader) : Option Bytes :=
  match safe_make_comment_header header with
  | .ok b => some b
  | .error _ => none

/-! ## The ogg packet collaborator -/

/-- An `ogg::Packet`, restricted to the fields this crate uses. -/
structure Packet where
  data : Bytes
  stream_serial : Nat
  absgp_page : Nat
  last_in_stream : Bool
  last_in_page : Bool
deriving DecidableEq, Repr

/-- One result of a `PacketReader::read_packet` call:
`Ok(Some(p))`, `Ok(None)` (end of stream), or `Err(_)`. -/
inductive ReadEvent where
  | packet (p : Packet)
  | eos
  | err
deriving DecidableEq, Repr

/-- Embeds `ogg::writing::PacketWriteEndInfo`. -/
inductive PacketWriteEndInfo where
  | NormalPacket
  | EndPage
  | EndStream
deriving DecidableEq, Repr

/-- One `PacketWriter::write_packet(data, serial, inf, absgp)` call. -/
structure WrittenPacket where
  data : Bytes
  serial : Nat
  inf : PacketWriteEndInfo
  absgp : Nat
deriving DecidableEq, Repr

/-- The `Cursor<Vec<u8>>` output: the sequence of packet writes it
received, and the cursor position. -/
structure OutCursor where
  buf : List WrittenPacket
  pos : Nat
deriving DecidableEq, Repr

/-! ## safe_read_comment_header -/

/-- Embeds `PacketReader::read_packet_expected`: the next event as a packet, with
the remaining events; `Ok(None)` and `Err(_)` (and an exhausted reader)
are `OggReadError`s, surfaced as `FailedReadOggFile`. -/
def read_packet_expected :
    List ReadEvent →
    Except VorbisReadCommentError (Packet × List ReadEvent)
  | [] => .error .FailedReadOggFile
  | .packet p :: rest => .ok (p, rest)
  | .eos :: _ => .error .FailedReadOggFile
  | .err :: _ => .error .FailedReadOggFile

/-- The `while packet.stream_serial() != stream_serial` loop of
`safe_read_comment_header`: keep reading until the current packet's serial
matches. -/
def skipOther (serial : Nat) : Packet → List ReadEvent →
    Except VorbisReadCommentError Packet
  | packet, evs =>
    if packet.stream_serial = serial then .ok packet
    else
      match evs with
      | .packet p :: rest => skipOther serial p rest
      | .eos :: _ => .error .FailedReadOggFile
      | .err :: _ => .error .FailedReadOggFile
      | [] => .error .FailedReadOggFile

/-- Embeds `safe_read_comment_header`: read the first packet for its serial, read
on (skipping packets of other serials), then decode the found packet as a
comment header.  `decode` stands for
`lewton::header::read_header_comment`. -/
def safe_read_comment_header (decode : Bytes → Option CommentHeader)
    (events : List ReadEvent) :
    Except VorbisReadCommentError CommentHeader :=
  match read_packet_expected events with
  | .error e => .error e
  | .ok (packet, rest) =>
    let stream_serial := packet.stream_serial
    match read_packet_expected rest with
    | .error e => .error e
    | .ok (packet2, rest2) =>
      match skipOther stream_serial packet2 rest2 with
      | .error e => .error e
      | .ok pfound =>
        match decode pfound.data with
        | some comment_hdr => .ok comment_hdr
        | none => .error .FailedReadHeader

/-! ## safe_replace_comment_header -/

/-- The end-info classification computed inside the replace loop:
`EndStream` if `last_in_stream`, else `EndPage` if `last_in_page`, else
`NormalPacket`. -/
def endInfoOf (p : Packet) : PacketWriteEndInfo :=
  if p.last_in_stream then .EndStream
  else if p.last_in_page then .EndPage
  else .NormalPacket

/-- A packet re-emitted with its original payload. -/
def origWrite (p : Packet) : WrittenPacket :=
  { data := p.data, serial := p.stream_serial, inf := endInfoOf p,
    absgp := p.absgp_page }

/-- The `loop` of `safe_replace_comment_header`.  For each read result:
a read error or `Ok(None)` breaks the loop; a packet is (when no
replacement happened yet and its payload decodes as a comment header)
given the new comment data, then written with its serial, end info and
granule position; a packet flagged both last-in-stream and last-in-page
breaks after being written.  Returns the list of `write_packet` calls. -/
def replaceLoop (decode : Bytes → Option CommentHeader)
    (new_comment_data : Bytes) :
    List ReadEvent → Bool → List WrittenPacket
  | [], _ => []
  | .eos :: _, _ => []
  | .err :: _, _ => []
  | .packet p :: rest, header_done =>
    let inf := endInfoOf p
    let (data, header_done') :=
      if header_done then (p.data, header_done)
      else
        match decode p.data with
        | some _ => (new_comment_data, true)
        | none => (p.data, header_done)
    let lastpacket := p.last_in_stream && p.last_in_page
    let w : WrittenPacket :=
      { data := data, serial := p.stream_serial, inf := inf,
        absgp := p.absgp_page }
    if lastpacket then [w]
    else w :: replaceLoop decode new_comment_data rest header_done'

/-- Embeds `safe_replace_comment_header`: encode the new header through the
panicking `make_comment_header` (so an encode failure panics: outer
`none`), run the rewrite loop, seek the output cursor back to 0, return
`Ok`. -/
def safe_replace_comment_header (decode : Bytes → Option CommentHeader)
    (events : List ReadEvent) (new_header : CommentHeader) :
    Option (Except VorbisReplaceCommentError OutCursor) :=
  match make_comment_header new_header with
  | none => none
  | some new_comment_data =>
    some (.ok { buf := replaceLoop decode new_comment_data events false,
                pos := 0 })

/-- The packets the replace loop processes: the prefix of the packet
events up to (and excluding) the first `eos`/`err`, cut after a packet
flagged both last-in-stream and last-in-page. -/
def processedPackets : List ReadEvent → List Packet
  | [] => []
  | .eos :: _ => []
  | .err :: _ => []
  | .packet p :: rest =>
    if p.last_in_stream && p.last_in_page then [p]
    else p :: processedPackets rest

/-! ## Helper lemmas: the encoder -/

lemma u32TryFrom_lt {n : Nat} (h : n < 2 ^ 32) : u32TryFrom n = .ok n := by
  rw [u32TryFrom, if_pos h]

lemma u32TryFrom_ge {n : Nat} (h : ¬ n < 2 ^ 32) :
    u32TryFrom n = .error ⟨⟩ := by
  rw [u32TryFrom, if_neg h]

lemma u32TryFrom_eq_ok {n m : Nat} (h : u32TryFrom n = .ok m) :
    n < 2 ^ 32 ∧ m = n := by
  by_cases hn : n < 2 ^ 32
  · rw [u32TryFrom_lt hn] at h
    injection h with h
    exact ⟨hn, h.symm⟩
  · rw [u32TryFrom_ge hn] at h
    cases h

lemma u32TryFrom_eq_error {n : Nat} {e : VorbisMakeCommentError}
    (h : u32TryFrom n = .error e) : ¬ n < 2 ^ 32 := by
  intro hn
  rw [u32TryFrom_lt hn] at h
  cases h

/-- When every `"<key>=<value>"` length fits `u32`, the comment loop
appends the flat per-comment encoding onto the accumulator. -/
lemma commentLoop_ok (l : List (Str × Str)) (acc : Bytes)
    (h : ∀ c ∈ l, (c.1 ++ eqByte :: c.2).length < 2 ^ 32) :
    commentLoop l acc =
      .ok (acc ++ l.flatMap fun c =>
        u32le (c.1 ++ eqByte :: c.2).length ++ (c.1 ++ eqByte :: c.2)) := by
  induction l generalizing acc with
  | nil => simp [commentLoop]
  | cons c rest ih =>
    obtain ⟨k, v⟩ := c
    have hk := h (k, v) (by simp)
    rw [commentLoop]
    simp only [u32TryFrom_lt hk]
    rw [ih _ fun c hc => h c (List.mem_cons_of_mem _ hc)]
    simp [List.append_assoc]

/-- The comment loop succeeds iff every `"<key>=<value>"` length fits. -/
lemma commentLoop_ok_iff (l : List (Str × Str)) (acc : Bytes) :
    (∃ b, commentLoop l acc = .ok b) ↔
      ∀ c ∈ l, (c.1 ++ eqByte :: c.2).length < 2 ^ 32 := by
  induction l generalizing acc with
  | nil => simp [commentLoop]
  | cons c rest ih =>
    obtain ⟨k, v⟩ := c
    by_cases hk : (k ++ eqByte :: v).length < 2 ^ 32
    · rw [commentLoop]
      simp only [u32TryFrom_lt hk]
      rw [ih]
      constructor
      · intro hrest c hc
        rcases List.mem_cons.mp hc with hc | hc
        · subst hc; exact hk
        · exact hrest c hc
      · intro hall c hc
        exact hall c (List.mem_cons_of_mem _ hc)
    · rw [commentLoop]
      simp only [u32TryFrom_ge hk]
      constructor
      · rintro ⟨b, hb⟩
        simp at hb
      · intro hall
        exact absurd (hall (k, v) (List.mem_cons_self _ _)) hk

/-- C1: for a header whose vendor byte length, entry count and every
`"<key>=<value>"` byte length fit in `u32`, `safe_make_comment_header`
returns exactly: the 7 signature bytes `[3,118,111,114,98,105,115]`, the
4-byte little-endian vendor length and the vendor bytes, the 4-byte
little-endian entry count, then per entry in storage order the 4-byte
little-endian `"<key>=<value>"` length and that string's bytes, then a
trailing byte 1. -/
theorem safe_make_comment_header_layout (h : CommentHeader)
    (hv : h.vendor.length < 2 ^ 32)
    (hc : h.comment_list.length < 2 ^ 32)
    (he : ∀ c ∈ h.comment_list, (c.1 ++ eqByte :: c.2).length < 2 ^ 32) :
    safe_make_comment_header h =
      .ok ([3, 118, 111, 114, 98, 105, 115]
        ++ u32le h.vendor.length ++ h.vendor
        ++ u32le h.comment_list.length
        ++ (h.comment_list.flatMap fun c =>
              u32le (c.1 ++ eqByte :: c.2).length ++ (c.1 ++ eqByte :: c.2))
        ++ [1]) := by
  rw [safe_make_comment_header]
  simp only [u32TryFrom_lt hv, u32TryFrom_lt hc]
  rw [commentLoop_ok _ _ he]

/-- Witness for C1 at vendor `"ab"`, entries `[("k", "v")]`. -/
theorem safe_make_comment_header_layout_witness :
    (([97, 98] : Str).length < 2 ^ 32 ∧
      ([([107], [118])] : List (Str × Str)).length < 2 ^ 32 ∧
      ∀ c ∈ ([([107], [118])] : List (Str × Str)),
        (c.1 ++ eqByte :: c.2).length < 2 ^ 32) ∧
    safe_make_comment_header ⟨[97, 98], [([107], [118])]⟩ =
      .ok ([3, 118, 111, 114, 98, 105, 115]
        ++ u32le ([97, 98] : Str).length ++ [97, 98]
        ++ u32le ([([107], [118])] : List (Str × Str)).length
        ++ (([([107], [118])] : List (Str × Str)).flatMap fun c =>
              u32le (c.1 ++ eqByte :: c.2).length ++ (c.1 ++ eqByte :: c.2))
        ++ [1]) :=
  ⟨⟨by decide, by decide, by decide⟩,
    safe_make_comment_header_layout ⟨[97, 98], [([107], [118])]⟩
      (by decide) (by decide) (by decide)⟩

/-- C4: `safe_make_comment_header` succeeds iff the vendor byte length,
the entry count, and every individual `"<key>=<value>"` byte length fit
in `u32`; in the failing case the first offending conversion aborts and
yields the encode error, carrying no bytes. -/
theorem safe_make_comment_header_ok_iff (h : CommentHeader) :
    (∃ b, safe_make_comment_header h = .ok b) ↔
      (h.vendor.length < 2 ^ 32 ∧ h.comment_list.length < 2 ^ 32 ∧
        ∀ c ∈ h.comment_list, (c.1 ++ eqByte :: c.2).length < 2 ^ 32) := by
  constructor
  · rintro ⟨b, hb⟩
    rw [safe_make_comment_header] at hb
    rcases hveq : u32TryFrom h.vendor.length with e | vendor_len
    · simp [hveq] at hb
    · obtain ⟨hv, rfl⟩ := u32TryFrom_eq_ok hveq
      simp only [hveq] at hb
      rcases hceq : u32TryFrom h.comment_list.length with e | comment_nbr
      · simp [hceq] at hb
      · obtain ⟨hc, rfl⟩ := u32TryFrom_eq_ok hceq
        simp only [hceq] at hb
        refine ⟨hv, hc, ?_⟩
        split at hb
        next e heq => simp at hb
        next packet heq => exact (commentLoop_ok_iff _ _).mp ⟨packet, heq⟩
  · rintro ⟨hv, hc, he⟩
    rw [safe_make_comment_header]
    simp only [u32TryFrom_lt hv, u32TryFrom_lt hc]
    rw [commentLoop_ok _ _ he]
    exact ⟨_, rfl⟩

/-! ## Helper lemmas: TagStore lookup -/

lemma length_pos_dif_eq_head? {α : Type} (l : List α) :
    (if h : l.length > 0 then some (l.get ⟨0, h⟩) else none) = l.head? := by
  cases l with
  | nil => rfl
  | cons a t => simp

lemma head?_filter_eq_find? {α : Type} (p : α → Bool) (l : List α) :
    (l.filter p).head? = l.find? p := by
  induction l with
  | nil => rfl
  | cons a t ih =>
    by_cases hpa : p a
    · simp [List.filter_cons, List.find?_cons, hpa]
    · simp [List.filter_cons, List.find?_cons, hpa, ih]

/-- The function `get_tag_single` returns the second component of the first entry (in
storage order) whose lowercased key equals the lowercased argument. -/
lemma get_tag_single_eq_find? (lower : Str → Str) (h : CommentHeader)
    (tag : Str) :
    get_tag_single lower h tag =
      (h.comment_list.find? fun c =>
        lower c.1 = lower tag).map (·.2) := by
  rw [get_tag_single, get_tag_multi]
  rw [length_pos_dif_eq_head?]
  rw [List.head?_map, head?_filter_eq_find?]

/-- Rust `str::to_lowercase` on ASCII text: bytes 65–90 (`A`–`Z`) map to
97–122 (`a`–`z`), all other bytes are unchanged.  (On the ASCII strings
appearing below this coincides exactly with the standard library.) -/
def asciiLower : Str → Str :=
  List.map fun c => if 65 ≤ c ∧ c ≤ 90 then c + 32 else c

/-- C9: `add_tag_single` appends exactly the one entry
`(lowercase tag, value)` at the end, leaving all existing entries (and the
vendor) unchanged; `get_tag_single` returns the value of the first entry
in storage order whose lowercased stored key equals the lowercased
argument (`none` when no entry matches); and concretely, after
`add_tag_single "Artist" "x"`, `get_tag_single "ARTIST"` returns `"x"`
(byte strings `[65,114,116,105,115,116]`, `[65,82,84,73,83,84]`,
`[120]`). -/
theorem add_tag_single_get_tag_single_spec (lower : Str → Str)
    (h : CommentHeader) (tag value : Str) :
    (add_tag_single lower h tag value).comment_list
        = h.comment_list ++ [(lower tag, value)]
      ∧ (add_tag_single lower h tag value).vendor = h.vendor
      ∧ (∀ (h' : CommentHeader) (t : Str),
          get_tag_single lower h' t =
            (h'.comment_list.find? fun c =>
              lower c.1 = lower t).map (·.2))
      ∧ get_tag_single asciiLower
          (add_tag_single asciiLower VorbisComments.new
            [65, 114, 116, 105, 115, 116] [120])
          [65, 82, 84, 73, 83, 84] = some [120] := by
  refine ⟨rfl, rfl, fun h' t => get_tag_single_eq_find? lower h' t, ?_⟩
  decide

/-! ## Helper lemmas: the replace loop -/

/-- After the replacement has happened (`header_done = true`), every
remaining processed packet is re-emitted with its original payload,
serial, end info and granule position. -/
lemma replaceLoop_done (decode : Bytes → Option CommentHeader)
    (nd : Bytes) (evs : List ReadEvent) :
    replaceLoop decode nd evs true =
      (processedPackets evs).map origWrite := by
  induction evs with
  | nil => rfl
  | cons e rest ih =>
    cases e with
    | eos => rfl
    | err => rfl
    | packet p =>
      rw [replaceLoop, processedPackets]
      by_cases hl : (p.last_in_stream && p.last_in_page) = true
      · simp [hl, origWrite]
      · simp [hl, ih, origWrite]

/-- Structure of a full run starting with no replacement done: either no
processed packet's payload decodes as a comment header and everything is
re-emitted verbatim, or the processed packets split as `P1 ++ q :: P2`
where `q` is the first packet whose payload decodes, `q` alone is emitted
with the new comment data, and everything else is emitted verbatim. -/
lemma replaceLoop_structure (decode : Bytes → Option CommentHeader)
    (nd : Bytes) (evs : List ReadEvent) :
    ((∀ p ∈ processedPackets evs, decode p.data = none) ∧
      replaceLoop decode nd evs false =
        (processedPackets evs).map origWrite)
    ∨ (∃ P1 q P2, processedPackets evs = P1 ++ q :: P2 ∧
        (∀ p ∈ P1, decode p.data = none) ∧ (decode q.data).isSome ∧
        replaceLoop decode nd evs false =
          P1.map origWrite ++
            { data := nd, serial := q.stream_serial, inf := endInfoOf q,
              absgp := q.absgp_page } :: P2.map origWrite) := by
  induction evs with
  | nil => left; exact ⟨by simp [processedPackets], rfl⟩
  | cons e rest ih =>
    cases e with
    | eos => left; exact ⟨by simp [processedPackets], rfl⟩
    | err => left; exact ⟨by simp [processedPackets], rfl⟩
    | packet p =>
      rcases hdec : decode p.data with _ | hdr
      · by_cases hl : (p.last_in_stream && p.last_in_page) = true
        · left
          constructor
          · intro q hq
            rw [processedPackets, if_pos hl] at hq
            rw [List.mem_singleton] at hq
            subst hq
            exact hdec
          · rw [replaceLoop, processedPackets]
            simp [hl, hdec, origWrite]
        · rcases ih with ⟨hall, heq⟩ | ⟨P1, q, P2, hP, h1, hq, heq⟩
          · left
            constructor
            · intro q hq
              rw [processedPackets, if_neg hl] at hq
              rcases List.mem_cons.mp hq with rfl | hq
              · exact hdec
              · exact hall q hq
            · rw [replaceLoop, processedPackets]
              simp [hl, hdec, heq, origWrite]
          · right
            refine ⟨p :: P1, q, P2, ?_, ?_, hq, ?_⟩
            · rw [processedPackets]
              simp [hl, hP]
            · intro p' hp'
              rcases List.mem_cons.mp hp' with rfl | hp'
              · exact hdec
              · exact h1 p' hp'
            · rw [replaceLoop]
              simp [hl, hdec, heq, origWrite]
      · right
        by_cases hl : (p.last_in_stream && p.last_in_page) = true
        · refine ⟨[], p, [], ?_, by simp, by simp [hdec], ?_⟩
          · rw [processedPackets]
            simp [hl]
          · rw [replaceLoop]
            simp [hl, hdec]
        · refine ⟨[], p, processedPackets rest, ?_, by simp,
            by simp [hdec], ?_⟩
          · rw [processedPackets]
            simp [hl]
          · rw [replaceLoop]
            simp [hl, hdec, replaceLoop_done]

/-- The replace loop emits one written packet per processed packet, each
carrying the packet's stream serial, its granule position, and the end
info classified from its flags. -/
lemma replaceLoop_framing (decode : Bytes → Option CommentHeader)
    (nd : Bytes) :
    ∀ (evs : List ReadEvent) (done : Bool),
    List.Forall₂ (fun (w : WrittenPacket) (p : Packet) =>
        w.serial = p.stream_serial ∧ w.absgp = p.absgp_page ∧
          w.inf = (if p.last_in_stream then PacketWriteEndInfo.EndStream
            else if p.last_in_page then PacketWriteEndInfo.EndPage
            else PacketWriteEndInfo.NormalPacket))
      (replaceLoop decode nd evs done) (processedPackets evs) := by
  intro evs
  induction evs with
  | nil => intro done; exact List.Forall₂.nil
  | cons e rest ih =>
    intro done
    cases e with
    | eos => exact List.Forall₂.nil
    | err => exact List.Forall₂.nil
    | packet p =>
      rw [replaceLoop, processedPackets]
      by_cases hl : (p.last_in_stream && p.last_in_page) = true
      · simp only [hl, if_pos]
        cases done
        · rcases hdec : decode p.data with _ | hdr
          · simp only [hdec]
            exact List.Forall₂.cons ⟨rfl, rfl, rfl⟩ List.Forall₂.nil
          · simp only [hdec]
            exact List.Forall₂.cons ⟨rfl, rfl, rfl⟩ List.Forall₂.nil
        · exact List.Forall₂.cons ⟨rfl, rfl, rfl⟩ List.Forall₂.nil
      · simp only [hl, if_neg]
        cases done
        · rcases hdec : decode p.data with _ | hdr
          · simp only [hdec]
            exact List.Forall₂.cons ⟨rfl, rfl, rfl⟩ (ih _)
          · simp only [hdec]
            exact List.Forall₂.cons ⟨rfl, rfl, rfl⟩ (ih _)
        · exact List.Forall₂.cons ⟨rfl, rfl, rfl⟩ (ih _)

/-- Events after a read error are never reached: the loop stops at the
error with whatever it has written. -/
lemma replaceLoop_err_absorb (decode : Bytes → Option CommentHeader)
    (nd : Bytes) :
    ∀ (pre rest : List ReadEvent) (done : Bool),
    replaceLoop decode nd (pre ++ .err :: rest) done =
      replaceLoop decode nd pre done := by
  intro pre
  induction pre with
  | nil => intro rest done; rfl
  | cons e pre ih =>
    intro rest done
    cases e with
    | eos => rfl
    | err => rfl
    | packet p =>
      simp only [List.cons_append, replaceLoop, List.append_eq, ih]

deriving instance DecidableEq for Except

/-! ## Concrete fixtures used by witnesses and counterexamples -/

/-- A decode oracle accepting exactly the payload `[9]`. -/
def decodeOn9 : Bytes → Option CommentHeader :=
  fun b => if b = [9] then some ⟨[], []⟩ else none

/-- The encoding of the empty comment header. -/
def emptyHeaderBytes : Bytes :=
  [3, 118, 111, 114, 98, 105, 115, 0, 0, 0, 0, 0, 0, 0, 0, 1]

/-- Two mid-page packets of serial 4, payloads `[8]` and `[9]`. -/
def eventsTwo : List ReadEvent :=
  [.packet ⟨[8], 4, 0, false, false⟩, .packet ⟨[9], 4, 1, false, false⟩]

/-- C2: when the new header encodes, a run of
`safe_replace_comment_header` returns `Ok` with the loop's output, and
that output either re-emits every processed packet with its original
payload (when no payload ever decodes as a comment block — still `Ok`,
no error), or substitutes exactly the first packet whose payload decodes
as a comment block with the new encoding, re-emitting every other packet
(in particular every later one, decodable or not) with its original
payload. -/
theorem safe_replace_comment_header_replaces_at_most_once
    (decode : Bytes → Option CommentHeader) (events : List ReadEvent)
    (new_header : CommentHeader) (nd : Bytes)
    (henc : safe_make_comment_header new_header = .ok nd) :
    safe_replace_comment_header decode events new_header =
        some (.ok { buf := replaceLoop decode nd events false, pos := 0 })
      ∧ (((∀ p ∈ processedPackets events, decode p.data = none) ∧
            replaceLoop decode nd events false =
              (processedPackets events).map origWrite)
        ∨ (∃ P1 q P2, processedPackets events = P1 ++ q :: P2 ∧
            (∀ p ∈ P1, decode p.data = none) ∧ (decode q.data).isSome ∧
            replaceLoop decode nd events false =
              P1.map origWrite ++
                { data := nd, serial := q.stream_serial,
                  inf := endInfoOf q,
                  absgp := q.absgp_page } :: P2.map origWrite)) := by
  constructor
  · simp only [safe_replace_comment_header, make_comment_header, henc]
  · exact replaceLoop_structure decode nd events

/-- Witness for C2: two packets of serial 4, the second decodable, with
the empty new header. -/
theorem safe_replace_comment_header_replaces_at_most_once_witness :
    safe_make_comment_header ⟨[], []⟩ = .ok emptyHeaderBytes ∧
    (safe_replace_comment_header decodeOn9 eventsTwo ⟨[], []⟩ =
        some (.ok
          ⟨replaceLoop decodeOn9 emptyHeaderBytes eventsTwo false, 0⟩)
      ∧ (((∀ p ∈ processedPackets eventsTwo, decodeOn9 p.data = none) ∧
            replaceLoop decodeOn9 emptyHeaderBytes eventsTwo false =
              (processedPackets eventsTwo).map origWrite)
        ∨ (∃ P1 q P2, processedPackets eventsTwo = P1 ++ q :: P2 ∧
            (∀ p ∈ P1, decodeOn9 p.data = none) ∧
            (decodeOn9 q.data).isSome ∧
            replaceLoop decodeOn9 emptyHeaderBytes eventsTwo false =
              P1.map origWrite ++
                { data := emptyHeaderBytes, serial := q.stream_serial,
                  inf := endInfoOf q,
                  absgp := q.absgp_page } :: P2.map origWrite))) :=
  ⟨by decide,
    safe_replace_comment_header_replaces_at_most_once decodeOn9 eventsTwo
      ⟨[], []⟩ emptyHeaderBytes (by decide)⟩

/-- C3: every packet a successful run of `safe_replace_comment_header`
emits is written with its source packet's original stream serial and
original absolute granule position, and with end info `EndStream` if that
packet is flagged last-in-stream, else `EndPage` if flagged last-in-page,
else `NormalPacket`. -/
theorem safe_replace_comment_header_preserves_framing
    (decode : Bytes → Option CommentHeader) (events : List ReadEvent)
    (new_header : CommentHeader) (out : OutCursor)
    (hrun : safe_replace_comment_header decode events new_header =
      some (.ok out)) :
    List.Forall₂ (fun (w : WrittenPacket) (p : Packet) =>
        w.serial = p.stream_serial ∧ w.absgp = p.absgp_page ∧
          w.inf = (if p.last_in_stream then PacketWriteEndInfo.EndStream
            else if p.last_in_page then PacketWriteEndInfo.EndPage
            else PacketWriteEndInfo.NormalPacket))
      out.buf (processedPackets events) := by
  rw [safe_replace_comment_header] at hrun
  rcases hmk : make_comment_header new_header with _ | nd
  · rw [hmk] at hrun; cases hrun
  · rw [hmk] at hrun
    injection hrun with hrun
    injection hrun with hrun
    have hbuf : out.buf = replaceLoop decode nd events false := by
      rw [← hrun]
    rw [hbuf]
    exact replaceLoop_framing decode nd events false

/-- Two packets of serial 4, the second flagged last in page and
stream. -/
def eventsEnding : List ReadEvent :=
  [.packet ⟨[8], 4, 7, false, false⟩, .packet ⟨[9], 4, 11, true, true⟩]

/-- Witness for C3: a run over `eventsEnding` with nothing decodable. -/
theorem safe_replace_comment_header_preserves_framing_witness :
    safe_replace_comment_header (fun _ => none) eventsEnding ⟨[], []⟩ =
      some (.ok ⟨[⟨[8], 4, .NormalPacket, 7⟩, ⟨[9], 4, .EndStream, 11⟩],
        0⟩) ∧
    List.Forall₂ (fun (w : WrittenPacket) (p : Packet) =>
        w.serial = p.stream_serial ∧ w.absgp = p.absgp_page ∧
          w.inf = (if p.last_in_stream then PacketWriteEndInfo.EndStream
            else if p.last_in_page then PacketWriteEndInfo.EndPage
            else PacketWriteEndInfo.NormalPacket))
      (OutCursor.buf ⟨[⟨[8], 4, .NormalPacket, 7⟩,
        ⟨[9], 4, .EndStream, 11⟩], 0⟩)
      (processedPackets eventsEnding) :=
  ⟨by decide,
    safe_replace_comment_header_preserves_framing (fun _ => none)
      eventsEnding ⟨[], []⟩
      ⟨[⟨[8], 4, .NormalPacket, 7⟩, ⟨[9], 4, .EndStream, 11⟩], 0⟩
      (by decide)⟩

/-- A new header whose vendor byte length (2^32) does not fit `u32`. -/
def oversizedVendorHeader : CommentHeader :=
  ⟨List.replicate (2 ^ 32) 0, []⟩

/-- C5 (code bug): `safe_replace_comment_header` encodes the new header
through the panicking wrapper `make_comment_header` (not the fallible
`safe_make_comment_header`), so when the new header fails to encode —
here a vendor of 2^32 bytes — the call panics (modelled `none`) for every
decode oracle and every input, instead of returning a typed error. -/
theorem safe_replace_comment_header_panics_on_encode_failure
    (decode : Bytes → Option CommentHeader) (events : List ReadEvent) :
    safe_replace_comment_header decode events oversizedVendorHeader =
      none := by
  have key : ∀ v : Str, ¬ (v.length < 2 ^ 32) →
      safe_make_comment_header ⟨v, []⟩ = .error ⟨⟩ := by
    intro v hv
    rw [safe_make_comment_header]
    simp only [u32TryFrom_ge hv]
  have henc : safe_make_comment_header oversizedVendorHeader =
      .error ⟨⟩ :=
    key (List.replicate (2 ^ 32) 0)
      (by rw [List.length_replicate]; exact lt_irrefl _)
  have stop : ∀ h : CommentHeader,
      safe_make_comment_header h = .error ⟨⟩ →
      safe_replace_comment_header decode events h = none := by
    intro h he
    rw [safe_replace_comment_header, make_comment_header, he]
  exact stop oversizedVendorHeader henc

/-- C6 counterexample: a failure on the very first packet read does not
make `safe_replace_comment_header` return an error — the run still
returns `Ok` (here with empty output, cursor at 0). -/
theorem safe_replace_comment_header_initial_read_error_is_soft :
    safe_replace_comment_header (fun _ => none) [ReadEvent.err]
        ⟨[], []⟩ = some (.ok ⟨[], 0⟩) ∧
      ∀ e : VorbisReplaceCommentError,
        safe_replace_comment_header (fun _ => none) [ReadEvent.err]
          ⟨[], []⟩ ≠ some (.error e) := by
  constructor
  · decide
  · intro e
    cases e
    decide

/-- C6 amended: every read failure — the initial read included — is a
soft stop: the loop halts at the failing read (events beyond it are
ignored), the output written so far is kept, the cursor is rewound to
position 0, and the function returns `Ok` with that partial output. -/
theorem safe_replace_comment_header_read_error_soft_stop
    (decode : Bytes → Option CommentHeader)
    (pre rest : List ReadEvent) (new_header : CommentHeader) (nd : Bytes)
    (henc : safe_make_comment_header new_header = .ok nd) :
    safe_replace_comment_header decode (pre ++ .err :: rest) new_header =
      some (.ok ⟨replaceLoop decode nd pre false, 0⟩) := by
  simp only [safe_replace_comment_header, make_comment_header, henc,
    replaceLoop_err_absorb]

/-- Witness for the amended C6: one good packet, then a read error, then
a further packet that is never reached. -/
theorem safe_replace_comment_header_read_error_soft_stop_witness :
    safe_make_comment_header ⟨[], []⟩ = .ok emptyHeaderBytes ∧
    safe_replace_comment_header (fun _ => none)
        ([ReadEvent.packet ⟨[8], 4, 0, false, false⟩] ++
          ReadEvent.err :: [ReadEvent.packet ⟨[9], 4, 1, false, false⟩])
        ⟨[], []⟩ =
      some (.ok ⟨replaceLoop (fun _ => none) emptyHeaderBytes
        [ReadEvent.packet ⟨[8], 4, 0, false, false⟩] false, 0⟩) :=
  ⟨by decide,
    safe_replace_comment_header_read_error_soft_stop (fun _ => none)
      [ReadEvent.packet ⟨[8], 4, 0, false, false⟩]
      [ReadEvent.packet ⟨[9], 4, 1, false, false⟩]
      ⟨[], []⟩ emptyHeaderBytes (by decide)⟩

/-- C7 counterexample: the first packet has serial 5, the second packet
has serial 9 and a payload that decodes as a comment block; the run
substitutes the serial-9 packet's payload with the new encoding (which
differs from its original payload `[9]`), so a packet of another logical
stream is substituted. -/
theorem safe_replace_comment_header_substitutes_other_serial :
    safe_replace_comment_header decodeOn9
        [ReadEvent.packet ⟨[8], 5, 0, false, false⟩,
         ReadEvent.packet ⟨[9], 9, 1, false, false⟩] ⟨[], []⟩ =
      some (.ok ⟨[⟨[8], 5, .NormalPacket, 0⟩,
        ⟨emptyHeaderBytes, 9, .NormalPacket, 1⟩], 0⟩) ∧
    emptyHeaderBytes ≠ [9] ∧ (5 : Nat) ≠ 9 := by
  refine ⟨by decide, by decide, by decide⟩

/-- C7 amended: `safe_replace_comment_header` does not restrict candidate
packets to the first packet's logical stream: whenever the first packet's
payload does not decode and the second packet's payload does, the second
packet is substituted with the new encoding — its stream serial (equal to
the first packet's or not) plays no role. -/
theorem safe_replace_comment_header_ignores_serial
    (decode : Bytes → Option CommentHeader) (p0 p1 : Packet)
    (rest : List ReadEvent) (new_header : CommentHeader) (nd : Bytes)
    (out : OutCursor)
    (henc : safe_make_comment_header new_header = .ok nd)
    (h0 : decode p0.data = none)
    (h1 : (decode p1.data).isSome)
    (hl0 : ¬ (p0.last_in_stream && p0.last_in_page) = true)
    (hrun : safe_replace_comment_header decode
        (.packet p0 :: .packet p1 :: rest) new_header =
      some (.ok out)) :
    out.buf.get? 1 =
      some ⟨nd, p1.stream_serial, endInfoOf p1, p1.absgp_page⟩ := by
  rw [safe_replace_comment_header, make_comment_header, henc] at hrun
  injection hrun with hrun
  injection hrun with hrun
  have hbuf : out.buf =
      replaceLoop decode nd (.packet p0 :: .packet p1 :: rest) false := by
    rw [← hrun]
  rw [hbuf, replaceLoop]
  simp only [h0, hl0, if_neg]
  rcases hdec : decode p1.data with _ | hdr
  · rw [hdec] at h1; cases h1
  · rw [replaceLoop]
    simp only [hdec]
    by_cases hl1 : (p1.last_in_stream && p1.last_in_page) = true
    · simp [hl1]
    · simp [hl1]

/-- Witness for the amended C7: serials 5 and 9 differ, the second
packet is decodable. -/
theorem safe_replace_comment_header_ignores_serial_witness :
    (safe_make_comment_header ⟨[], []⟩ = .ok emptyHeaderBytes ∧
      decodeOn9 ([8] : Bytes) = none ∧
      (decodeOn9 ([9] : Bytes)).isSome ∧
      ¬ (false && false) = true ∧
      safe_replace_comment_header decodeOn9
          [ReadEvent.packet ⟨[8], 5, 0, false, false⟩,
           ReadEvent.packet ⟨[9], 9, 1, false, false⟩] ⟨[], []⟩ =
        some (.ok ⟨[⟨[8], 5, .NormalPacket, 0⟩,
          ⟨emptyHeaderBytes, 9, .NormalPacket, 1⟩], 0⟩)) ∧
    (OutCursor.buf ⟨[⟨[8], 5, .NormalPacket, 0⟩,
        ⟨emptyHeaderBytes, 9, .NormalPacket, 1⟩], 0⟩).get? 1 =
      some ⟨emptyHeaderBytes, 9,
        endInfoOf ⟨[9], 9, 1, false, false⟩, 1⟩ :=
  ⟨⟨by decide, by decide, by decide, by decide, by decide⟩,
    safe_replace_comment_header_ignores_serial decodeOn9
      ⟨[8], 5, 0, false, false⟩ ⟨[9], 9, 1, false, false⟩ []
      ⟨[], []⟩ emptyHeaderBytes
      ⟨[⟨[8], 5, .NormalPacket, 0⟩,
        ⟨emptyHeaderBytes, 9, .NormalPacket, 1⟩], 0⟩
      (by decide) (by decide) (by decide) (by decide) (by decide)⟩

/-! ## Helper lemmas: the read loop -/

/-- Starting from a non-matching packet, the serial-skipping loop skips
every further non-matching packet and stops at the first packet whose
serial matches. -/
lemma skipOther_finds (serial : Nat) (q : Packet) (rest : List ReadEvent)
    (hq : q.stream_serial = serial) :
    ∀ others : List Packet,
      (∀ o ∈ others, o.stream_serial ≠ serial) →
      ∀ p : Packet, p.stream_serial ≠ serial →
      skipOther serial p
        ((others.map ReadEvent.packet) ++ (ReadEvent.packet q :: rest)) =
        .ok q := by
  intro others
  induction others with
  | nil =>
    intro _ p hp
    rw [skipOther.eq_def]
    dsimp only
    rw [if_neg hp]
    simp only [List.map_nil, List.nil_append]
    rw [skipOther.eq_def]
    dsimp only
    rw [if_pos hq]
  | cons o os ih =>
    intro hothers p hp
    rw [skipOther.eq_def]
    dsimp only
    rw [if_neg hp]
    simp only [List.map_cons, List.cons_append]
    exact ih (fun o' ho' => hothers o' (List.mem_cons_of_mem _ ho')) o
      (hothers o (List.mem_cons_self _ _))

/-- Starting from a non-matching packet, if only non-matching packets
remain before the reader fails (its events run out, or the next
result is an error or end of stream), the skipping loop surfaces the
read failure. -/
lemma skipOther_stuck (serial : Nat) (tail : List ReadEvent)
    (htail : tail = [] ∨ (∃ r, tail = .err :: r) ∨
      (∃ r, tail = .eos :: r)) :
    ∀ others : List Packet,
      (∀ o ∈ others, o.stream_serial ≠ serial) →
      ∀ p : Packet, p.stream_serial ≠ serial →
      skipOther serial p ((others.map ReadEvent.packet) ++ tail) =
        .error .FailedReadOggFile := by
  intro others
  induction others with
  | nil =>
    intro _ p hp
    rw [skipOther.eq_def]
    dsimp only
    rw [if_neg hp]
    simp only [List.map_nil, List.nil_append]
    rcases htail with rfl | ⟨r, rfl⟩ | ⟨r, rfl⟩ <;> rfl
  | cons o os ih =>
    intro hothers p hp
    rw [skipOther.eq_def]
    dsimp only
    rw [if_neg hp]
    simp only [List.map_cons, List.cons_append]
    exact ih (fun o' ho' => hothers o' (List.mem_cons_of_mem _ ho')) o
      (hothers o (List.mem_cons_self _ _))

/-- A full run of `safe_read_comment_header` over a first packet, then
non-matching packets, then the first matching packet `q`: the result is
exactly the decode of `q`'s payload. -/
lemma safe_read_comment_header_run (decode : Bytes → Option CommentHeader)
    (p0 : Packet) (others : List Packet) (q : Packet)
    (rest : List ReadEvent)
    (hothers : ∀ o ∈ others, o.stream_serial ≠ p0.stream_serial)
    (hq : q.stream_serial = p0.stream_serial) :
    safe_read_comment_header decode
        (ReadEvent.packet p0 ::
          ((others.map ReadEvent.packet) ++ (ReadEvent.packet q :: rest)))
      = (match decode q.data with
         | some hdr => .ok hdr
         | none => .error .FailedReadHeader) := by
  rw [safe_read_comment_header]
  simp only [read_packet_expected]
  cases others with
  | nil =>
    simp only [List.map_nil, List.nil_append, read_packet_expected]
    rw [skipOther.eq_def]
    dsimp only
    rw [if_pos hq]
  | cons o os =>
    simp only [List.map_cons, List.cons_append, read_packet_expected]
    rw [skipOther_finds p0.stream_serial q rest hq os
      (fun o' ho' => hothers o' (List.mem_cons_of_mem _ ho')) o
      (hothers o (List.mem_cons_self _ _))]

/-- C8: `safe_read_comment_header` takes the serial of the first packet,
skips every subsequent packet whose serial differs, and decodes the first
subsequent packet `q` of that serial: `Ok(header)` when `q`'s payload
decodes, the decode error when it does not, and the container read error
when the reader fails before a matching packet (or on the initial
read). -/
theorem safe_read_comment_header_first_stream
    (decode : Bytes → Option CommentHeader) (p0 : Packet)
    (others : List Packet) (q : Packet) (rest : List ReadEvent)
    (hothers : ∀ o ∈ others, o.stream_serial ≠ p0.stream_serial)
    (hq : q.stream_serial = p0.stream_serial) :
    (∀ hdr, decode q.data = some hdr →
      safe_read_comment_header decode
        (ReadEvent.packet p0 ::
          ((others.map ReadEvent.packet) ++ (ReadEvent.packet q :: rest)))
        = .ok hdr)
    ∧ (decode q.data = none →
      safe_read_comment_header decode
        (ReadEvent.packet p0 ::
          ((others.map ReadEvent.packet) ++ (ReadEvent.packet q :: rest)))
        = .error .FailedReadHeader)
    ∧ safe_read_comment_header decode
        (ReadEvent.packet p0 :: (others.map ReadEvent.packet))
        = .error .FailedReadOggFile
    ∧ safe_read_comment_header decode [] = .error .FailedReadOggFile := by
  refine ⟨?_, ?_, ?_, rfl⟩
  · intro hdr hdec
    rw [safe_read_comment_header_run decode p0 others q rest hothers hq,
      hdec]
  · intro hdec
    rw [safe_read_comment_header_run decode p0 others q rest hothers hq,
      hdec]
  · rw [safe_read_comment_header]
    simp only [read_packet_expected]
    cases others with
    | nil => rfl
    | cons o os =>
      simp only [List.map_cons, read_packet_expected]
      have hstuck := skipOther_stuck p0.stream_serial [] (Or.inl rfl) os
        (fun o' ho' => hothers o' (List.mem_cons_of_mem _ ho')) o
        (hothers o (List.mem_cons_self _ _))
      simp only [List.append_nil] at hstuck
      rw [hstuck]

/-- Witness for C8: first packet serial 5, one serial-6 packet skipped,
then a serial-5 packet with payload `[9]` decoded by `decodeOn9`. -/
theorem safe_read_comment_header_first_stream_witness :
    ((∀ o ∈ [(⟨[2], 6, 0, false, false⟩ : Packet)],
        o.stream_serial ≠ (5 : Nat)) ∧
      ((⟨[9], 5, 1, false, false⟩ : Packet).stream_serial = (5 : Nat))) ∧
    ((∀ hdr, decodeOn9 ([9] : Bytes) = some hdr →
      safe_read_comment_header decodeOn9
        (ReadEvent.packet ⟨[1], 5, 0, false, false⟩ ::
          (([(⟨[2], 6, 0, false, false⟩ : Packet)].map ReadEvent.packet) ++
            (ReadEvent.packet ⟨[9], 5, 1, false, false⟩ :: [])))
        = .ok hdr)
    ∧ (decodeOn9 ([9] : Bytes) = none →
      safe_read_comment_header decodeOn9
        (ReadEvent.packet ⟨[1], 5, 0, false, false⟩ ::
          (([(⟨[2], 6, 0, false, false⟩ : Packet)].map ReadEvent.packet) ++
            (ReadEvent.packet ⟨[9], 5, 1, false, false⟩ :: [])))
        = .error .FailedReadHeader)
    ∧ safe_read_comment_header decodeOn9
        (ReadEvent.packet ⟨[1], 5, 0, false, false⟩ ::
          ([(⟨[2], 6, 0, false, false⟩ : Packet)].map ReadEvent.packet))
        = .error .FailedReadOggFile
    ∧ safe_read_comment_header decodeOn9 [] =
        .error .FailedReadOggFile) :=
  ⟨⟨by decide, by decide⟩,
    safe_read_comment_header_first_stream decodeOn9
      ⟨[1], 5, 0, false, false⟩ [⟨[2], 6, 0, false, false⟩]
      ⟨[9], 5, 1, false, false⟩ [] (by decide) (by decide)⟩

/-- C10: the single candidate packet parsed by
`safe_read_comment_header` is the first packet after the initial one
whose serial equals the initial packet's; when its payload fails to
decode, the decode error is returned at once and the result does not
depend on any later event. -/
theorem safe_read_comment_header_single_candidate
    (decode : Bytes → Option CommentHeader) (p0 : Packet)
    (others : List Packet) (q : Packet) (rest rest' : List ReadEvent)
    (hothers : ∀ o ∈ others, o.stream_serial ≠ p0.stream_serial)
    (hq : q.stream_serial = p0.stream_serial)
    (hfail : decode q.data = none) :
    safe_read_comment_header decode
        (ReadEvent.packet p0 ::
          ((others.map ReadEvent.packet) ++ (ReadEvent.packet q :: rest)))
      = .error .FailedReadHeader
    ∧ safe_read_comment_header decode
        (ReadEvent.packet p0 ::
          ((others.map ReadEvent.packet) ++ (ReadEvent.packet q :: rest)))
      = safe_read_comment_header decode
          (ReadEvent.packet p0 ::
            ((others.map ReadEvent.packet) ++
              (ReadEvent.packet q :: rest'))) := by
  constructor
  · rw [safe_read_comment_header_run decode p0 others q rest hothers hq,
      hfail]
  · rw [safe_read_comment_header_run decode p0 others q rest hothers hq,
      safe_read_comment_header_run decode p0 others q rest' hothers hq]

/-- Witness for C10: the serial-5 candidate's payload `[8]` is not
decodable; a decodable serial-5 packet sits beyond it in `rest` and is
never examined. -/
theorem safe_read_comment_header_single_candidate_witness :
    ((∀ o ∈ [(⟨[2], 6, 0, false, false⟩ : Packet)],
        o.stream_serial ≠ (5 : Nat)) ∧
      ((⟨[8], 5, 1, false, false⟩ : Packet).stream_serial = (5 : Nat)) ∧
      decodeOn9 ([8] : Bytes) = none) ∧
    (safe_read_comment_header decodeOn9
        (ReadEvent.packet ⟨[1], 5, 0, false, false⟩ ::
          (([(⟨[2], 6, 0, false, false⟩ : Packet)].map ReadEvent.packet) ++
            (ReadEvent.packet ⟨[8], 5, 1, false, false⟩ ::
              [ReadEvent.packet ⟨[9], 5, 2, false, false⟩])))
      = .error .FailedReadHeader
    ∧ safe_read_comment_header decodeOn9
        (ReadEvent.packet ⟨[1], 5, 0, false, false⟩ ::
          (([(⟨[2], 6, 0, false, false⟩ : Packet)].map ReadEvent.packet) ++
            (ReadEvent.packet ⟨[8], 5, 1, false, false⟩ ::
              [ReadEvent.packet ⟨[9], 5, 2, false, false⟩])))
      = safe_read_comment_header decodeOn9
          (ReadEvent.packet ⟨[1], 5, 0, false, false⟩ ::
            (([(⟨[2], 6, 0, false, false⟩ : Packet)].map
                ReadEvent.packet) ++
              (ReadEvent.packet ⟨[8], 5, 1, false, false⟩ :: [])))) :=
  ⟨⟨by decide, by decide, by decide⟩,
    safe_read_comment_header_single_candidate decodeOn9
      ⟨[1], 5, 0, false, false⟩ [⟨[2], 6, 0, false, false⟩]
      ⟨[8], 5, 1, false, false⟩
      [ReadEvent.packet ⟨[9], 5, 2, false, false⟩] []
      (by decide) (by decide) (by decide)⟩
